import Mathlib

/-!
Verification of the quote-cache / arbitrage-opportunity engine.

Shallow embedding of the core of the repository:
  * `src/models.py`          — `PriceData`, `ArbitrageOpportunity`
  * `src/config.py`          — `Settings.get_exchange_fee`, fee/threshold fields
  * `src/processors/arbitrage_calculator.py`
                             — `ArbitrageCalculator.calculate_opportunities`,
                               `ArbitrageCalculator.filter_profitable`

Python floats are modelled as rationals (`ℚ`); `datetime.utcnow()` is modelled
by an explicit ambient-clock argument `now : ℚ` (each engine call stamps the
opportunities it constructs with the clock value, exactly as the
`default_factory=datetime.utcnow` field default does at construction time).
-/

namespace Arb

/-- `PriceData` from `src/models.py`: one exchange's quoted price for one
symbol, with a capture timestamp and optional 24h volume. -/
structure PriceData where
  exchange : String
  symbol : String
  price : ℚ
  timestamp : ℚ
  volume_24h : Option ℚ
  deriving DecidableEq, Repr

/-- `ArbitrageOpportunity` from `src/models.py`: the computed buy/sell spread
for one symbol across two exchanges.  `timestamp` is filled from the ambient
clock at construction (`default_factory=datetime.utcnow`). -/
structure ArbitrageOpportunity where
  symbol : String
  buy_exchange : String
  sell_exchange : String
  buy_price : ℚ
  sell_price : ℚ
  price_diff : ℚ
  price_diff_pct : ℚ
  estimated_profit_pct : ℚ
  timestamp : ℚ
  deriving DecidableEq, Repr

/-- The fee / threshold configuration from `src/config.py` (`Settings`);
only the fields the engine reads. -/
structure Settings where
  BYBIT_FEE : ℚ
  BINANCE_FEE : ℚ
  KUCOIN_FEE : ℚ
  MIN_PROFIT_THRESHOLD : ℚ
  deriving DecidableEq, Repr

/-- The default `Settings()` instance from `src/config.py` (fees 0.01,
threshold 0.02). -/
def defaultSettings : Settings :=
  { BYBIT_FEE := 1/100, BINANCE_FEE := 1/100, KUCOIN_FEE := 1/100,
    MIN_PROFIT_THRESHOLD := 2/100 }

/-- Python's `str.lower` on a single character, for the ASCII range that the
exchange identifiers live in (`config.py` calls `exchange.lower()`). -/
def lowerChar (c : Char) : Char :=
  if 65 ≤ c.toNat ∧ c.toNat ≤ 90 then Char.ofNat (c.toNat + 32) else c

/-- Python's `str.lower` (ASCII), applied characterwise. -/
def pyLower (s : String) : String :=
  String.mk (s.data.map lowerChar)

/-- The default fee returned by `Settings.get_exchange_fee` for an unknown
exchange: the literal `0.01` in `fees.get(exchange.lower(), 0.01)`
(`src/config.py` line 76). -/
def DEFAULT_FEE : ℚ := 1/100

/-- `Settings.get_exchange_fee` (`src/config.py` lines 69–76): dictionary
lookup on the lower-cased exchange identifier, defaulting to `0.01`. -/
def get_exchange_fee (s : Settings) (exchange : String) : ℚ :=
  let e := pyLower exchange
  if e = "bybit" then s.BYBIT_FEE
  else if e = "binance" then s.BINANCE_FEE
  else if e = "kucoin" then s.KUCOIN_FEE
  else DEFAULT_FEE

/-- Order-of-first-appearance deduplication: pandas `Series.unique()`, used
for both `df["symbol"].unique()` and `symbol_df["exchange"].unique()`
(each value kept once, at the position of its first occurrence). -/
def uniqueFirst : List String → List String
  | [] => []
  | x :: xs => x :: (uniqueFirst xs).filter (fun y => y != x)

/-- `itertools.combinations(l, 2)`: all ordered-by-position pairs of distinct
positions of `l`. -/
def pairs2 : List String → List (String × String)
  | [] => []
  | x :: xs => xs.map (fun y => (x, y)) ++ pairs2 xs

/-- `symbol_df[symbol_df["exchange"] == ex]["price"].values[0]`: the price of
the first row of the group whose exchange is `ex` (`arbitrage_calculator.py`
lines 53–54).  Total function; the `0` default is never reached when `ex`
occurs in the group. -/
def firstPriceIn (group : List PriceData) (ex : String) : ℚ :=
  match group.find? (fun p => p.exchange == ex) with
  | some p => p.price
  | none => 0

/-- The body of the inner pair loop of `calculate_opportunities`
(`arbitrage_calculator.py` lines 53–85): pick the two first-row prices,
assign buy/sell by `price1 < price2`, and build the opportunity record. -/
def mkOpportunity (s : Settings) (now : ℚ) (sym : String)
    (group : List PriceData) (ex1 ex2 : String) : ArbitrageOpportunity :=
  let price1 := firstPriceIn group ex1
  let price2 := firstPriceIn group ex2
  let buy_exchange := if price1 < price2 then ex1 else ex2
  let buy_price := if price1 < price2 then price1 else price2
  let sell_exchange := if price1 < price2 then ex2 else ex1
  let sell_price := if price1 < price2 then price2 else price1
  let price_diff := sell_price - buy_price
  let price_diff_pct := price_diff / buy_price * 100
  let buy_fee := get_exchange_fee s buy_exchange
  let sell_fee := get_exchange_fee s sell_exchange
  let total_fees := buy_fee + sell_fee
  let estimated_profit_pct := price_diff_pct - total_fees
  { symbol := sym, buy_exchange := buy_exchange, sell_exchange := sell_exchange,
    buy_price := buy_price, sell_price := sell_price, price_diff := price_diff,
    price_diff_pct := price_diff_pct, estimated_profit_pct := estimated_profit_pct,
    timestamp := now }

/-- The per-symbol part of `calculate_opportunities` (lines 43–87): restrict
to the symbol's rows, skip groups with fewer than two rows, and emit one
opportunity per unordered pair of distinct exchanges of the group. -/
def opportunitiesForSymbol (s : Settings) (now : ℚ)
    (prices : List PriceData) (sym : String) : List ArbitrageOpportunity :=
  let group := prices.filter (fun p => p.symbol == sym)
  if group.length < 2 then []
  else
    let exchanges := uniqueFirst (group.map (fun p => p.exchange))
    (pairs2 exchanges).map (fun pr => mkOpportunity s now sym group pr.1 pr.2)

/-- The comparison of the final `opportunities.sort(key=..., reverse=True)`:
descending by `estimated_profit_pct`. -/
def profitDesc (a b : ArbitrageOpportunity) : Prop :=
  b.estimated_profit_pct ≤ a.estimated_profit_pct

instance : DecidableRel profitDesc := fun a b =>
  inferInstanceAs (Decidable (b.estimated_profit_pct ≤ a.estimated_profit_pct))

instance : IsTotal ArbitrageOpportunity profitDesc :=
  ⟨fun a b => le_total b.estimated_profit_pct a.estimated_profit_pct⟩

instance : IsTrans ArbitrageOpportunity profitDesc :=
  ⟨fun _ _ _ h1 h2 => le_trans h2 h1⟩

/-- The `opportunities` list accumulated by `calculate_opportunities` before
the final sort (`arbitrage_calculator.py` lines 40–87): symbols in
first-appearance order, and within each symbol one opportunity per exchange
pair in `combinations` order — the generation order. -/
def generatedOpportunities (s : Settings) (now : ℚ)
    (prices : List PriceData) : List ArbitrageOpportunity :=
  (uniqueFirst (prices.map (fun p => p.symbol))).flatMap
    (fun sym => opportunitiesForSymbol s now prices sym)

/-- `ArbitrageCalculator.calculate_opportunities`
(`arbitrage_calculator.py` lines 16–92): group the snapshot by symbol in
first-appearance order, emit one opportunity per symbol and exchange pair,
and stable-sort the result by `estimated_profit_pct` descending (Python's
`list.sort` is stable; insertion sort with `profitDesc` is the same stable
descending sort). -/
def calculate_opportunities (s : Settings) (now : ℚ)
    (prices : List PriceData) : List ArbitrageOpportunity :=
  if prices.isEmpty then []
  else List.insertionSort profitDesc (generatedOpportunities s now prices)

/-- `ArbitrageCalculator.filter_profitable`
(`arbitrage_calculator.py` lines 94–107): keep the opportunities with
`estimated_profit_pct >= MIN_PROFIT_THRESHOLD`, in input order. -/
def filter_profitable (s : Settings)
    (opportunities : List ArbitrageOpportunity) : List ArbitrageOpportunity :=
  opportunities.filter
    (fun opp => decide (s.MIN_PROFIT_THRESHOLD ≤ opp.estimated_profit_pct))

/-- The sort order the spec's §4.2 step 5 claims for the output:
`estimated_profit_pct` descending, ties by `symbol` ascending then
`buy_exchange` ascending. -/
def specTieRel (a b : ArbitrageOpportunity) : Prop :=
  b.estimated_profit_pct ≤ a.estimated_profit_pct ∧
    (a.estimated_profit_pct = b.estimated_profit_pct →
      a.symbol < b.symbol ∨ (a.symbol = b.symbol ∧ a.buy_exchange ≤ b.buy_exchange))

instance : DecidableRel specTieRel := fun a b => by
  unfold specTieRel
  infer_instance

/-- Recognizer for "an opportunity for symbol `sym` between the exchange pair
`{ex1, ex2}`" (in either buy/sell orientation). -/
def isOppFor (sym ex1 ex2 : String) (o : ArbitrageOpportunity) : Bool :=
  o.symbol == sym &&
    ((o.buy_exchange == ex1 && o.sell_exchange == ex2) ||
      (o.buy_exchange == ex2 && o.sell_exchange == ex1))

/-- A sample opportunity record used by concrete witnesses. -/
def oppSample : ArbitrageOpportunity :=
  { symbol := "S", buy_exchange := "a", sell_exchange := "b",
    buy_price := 1, sell_price := 2, price_diff := 1,
    price_diff_pct := 100, estimated_profit_pct := 1/10, timestamp := 0 }

/-- A `Settings` record that differs from the default only in a raised
profit threshold. -/
def settingsHighThreshold : Settings :=
  { BYBIT_FEE := 1/100, BINANCE_FEE := 1/100, KUCOIN_FEE := 1/100,
    MIN_PROFIT_THRESHOLD := 1 }

/-- A concrete low-priced quote used by witnesses. -/
def quoteLow : PriceData :=
  { exchange := "alpha", symbol := "BTCUSDT", price := 5, timestamp := 0,
    volume_24h := none }

/-- A concrete higher-priced quote for the same symbol on another exchange. -/
def quoteHigh : PriceData :=
  { exchange := "beta", symbol := "BTCUSDT", price := 7, timestamp := 0,
    volume_24h := none }

/-- The single opportunity the engine computes from the two-quote snapshot
`[quoteLow, quoteHigh]`. -/
def oppLowHigh : ArbitrageOpportunity :=
  mkOpportunity defaultSettings 0 "BTCUSDT" [quoteLow, quoteHigh] "alpha" "beta"

/-- Overwrite an opportunity's construction timestamp (used to state that the
ambient clock influences nothing but the `timestamp` field). -/
def withTimestamp (ts : ℚ) (o : ArbitrageOpportunity) : ArbitrageOpportunity :=
  { o with timestamp := ts }

/-- Tie-order scenario, row 1: symbol "B" (listed first), cheap on "x". -/
def rowBx : PriceData :=
  { exchange := "x", symbol := "B", price := 1, timestamp := 0, volume_24h := none }

/-- Tie-order scenario, row 2: symbol "B", dearer on "y". -/
def rowBy : PriceData :=
  { exchange := "y", symbol := "B", price := 2, timestamp := 0, volume_24h := none }

/-- Tie-order scenario, row 3: symbol "A" (listed second), cheap on "x". -/
def rowAx : PriceData :=
  { exchange := "x", symbol := "A", price := 1, timestamp := 0, volume_24h := none }

/-- Tie-order scenario, row 4: symbol "A", dearer on "y". -/
def rowAy : PriceData :=
  { exchange := "y", symbol := "A", price := 2, timestamp := 0, volume_24h := none }

/-- The opportunity the engine builds for symbol "B" in the tie scenario. -/
def oppB : ArbitrageOpportunity :=
  mkOpportunity defaultSettings 0 "B" [rowBx, rowBy] "x" "y"

/-- The opportunity the engine builds for symbol "A" in the tie scenario. -/
def oppA : ArbitrageOpportunity :=
  mkOpportunity defaultSettings 0 "A" [rowAx, rowAy] "x" "y"

/-- Equal-price scenario: the quote on exchange "alpha". -/
def quoteEqA : PriceData :=
  { exchange := "alpha", symbol := "XYZUSDT", price := 5, timestamp := 0,
    volume_24h := none }

/-- Equal-price scenario: the quote on exchange "beta", same price. -/
def quoteEqB : PriceData :=
  { exchange := "beta", symbol := "XYZUSDT", price := 5, timestamp := 0,
    volume_24h := none }

end Arb

namespace Arb

/-! ### Lowercasing lemmas (for the fee lookup) -/

theorem toNat_lowerChar_of_upper (c : Char) (h : 65 ≤ c.toNat ∧ c.toNat ≤ 90) :
    (lowerChar c).toNat = c.toNat + 32 := by
  have hv : (c.toNat + 32).isValidChar := Or.inl (by omega)
  rw [lowerChar, if_pos h, Char.ofNat, dif_pos hv]
  simp [Char.ofNatAux, Char.toNat, UInt32.toNat]

theorem lowerChar_of_not_upper (c : Char) (h : ¬(65 ≤ c.toNat ∧ c.toNat ≤ 90)) :
    lowerChar c = c := by
  rw [lowerChar, if_neg h]

theorem lowerChar_idem (c : Char) : lowerChar (lowerChar c) = lowerChar c := by
  by_cases h : 65 ≤ c.toNat ∧ c.toNat ≤ 90
  · have h1 := toNat_lowerChar_of_upper c h
    exact lowerChar_of_not_upper _ (by omega)
  · rw [lowerChar_of_not_upper c h, lowerChar_of_not_upper c h]

theorem pyLower_idem (s : String) : pyLower (pyLower s) = pyLower s := by
  show String.mk (((s.data.map lowerChar)).map lowerChar) = String.mk (s.data.map lowerChar)
  rw [List.map_map]
  exact congrArg String.mk (List.map_congr_left (fun c _ => lowerChar_idem c))

/-- C7 — The exchange-fee lookup is case-insensitive, and any identifier whose
lower-cased form is none of the three known exchange keys resolves to the
default fee (the `0.01` default of `fees.get`). -/
theorem fee_lookup_case_insensitive_and_default (s : Settings) (e : String) :
    get_exchange_fee s e = get_exchange_fee s (pyLower e) ∧
      (pyLower e ∉ (["bybit", "binance", "kucoin"] : List String) →
        get_exchange_fee s e = DEFAULT_FEE) := by
  constructor
  · simp only [get_exchange_fee, pyLower_idem]
  · intro hm
    simp only [List.mem_cons, List.not_mem_nil, or_false, not_or] at hm
    simp only [get_exchange_fee, if_neg hm.1, if_neg hm.2.1, if_neg hm.2.2]

theorem fee_lookup_case_insensitive_and_default_witness :
    pyLower "Unknown" ∉ (["bybit", "binance", "kucoin"] : List String) ∧
      get_exchange_fee defaultSettings "Unknown" = DEFAULT_FEE :=
  ⟨by decide,
   (fee_lookup_case_insensitive_and_default defaultSettings "Unknown").2 (by decide)⟩

/-! ### Filtering lemmas -/

theorem length_filter_mono {α : Type} (p q : α → Bool)
    (himp : ∀ a, p a = true → q a = true) :
    ∀ l : List α, (l.filter p).length ≤ (l.filter q).length := by
  intro l
  induction l with
  | nil => simp
  | cons x xs ih =>
    by_cases hp : p x = true
    · rw [List.filter_cons_of_pos hp, List.filter_cons_of_pos (himp x hp)]
      simpa using ih
    · rw [List.filter_cons_of_neg (by simpa using hp)]
      cases hq : q x with
      | true =>
        rw [List.filter_cons_of_pos hq]
        exact le_trans ih (Nat.le_succ _)
      | false =>
        rw [List.filter_cons_of_neg (by simp [hq])]
        exact ih

/-- C6 — `filter_profitable` returns an order-preserving subsequence of its
input, every element of which clears the threshold, and a higher threshold
never yields a longer result. -/
theorem filter_profitable_subseq_threshold_antitone (s s' : Settings)
    (l : List ArbitrageOpportunity)
    (h : s.MIN_PROFIT_THRESHOLD ≤ s'.MIN_PROFIT_THRESHOLD) :
    List.Sublist (filter_profitable s l) l ∧
      (∀ o ∈ filter_profitable s l, s.MIN_PROFIT_THRESHOLD ≤ o.estimated_profit_pct) ∧
      (filter_profitable s' l).length ≤ (filter_profitable s l).length := by
  refine ⟨List.filter_sublist l, fun o ho => ?_, ?_⟩
  · have := (List.mem_filter.mp ho).2
    exact of_decide_eq_true this
  · refine length_filter_mono _ _ (fun o hp => ?_) l
    have := of_decide_eq_true hp
    exact decide_eq_true (le_trans h this)

theorem filter_profitable_subseq_threshold_antitone_witness :
    defaultSettings.MIN_PROFIT_THRESHOLD ≤ settingsHighThreshold.MIN_PROFIT_THRESHOLD ∧
      (List.Sublist (filter_profitable defaultSettings [oppSample]) [oppSample] ∧
        (∀ o ∈ filter_profitable defaultSettings [oppSample],
          defaultSettings.MIN_PROFIT_THRESHOLD ≤ o.estimated_profit_pct) ∧
        (filter_profitable settingsHighThreshold [oppSample]).length ≤
          (filter_profitable defaultSettings [oppSample]).length) :=
  ⟨by norm_num [defaultSettings, settingsHighThreshold],
   filter_profitable_subseq_threshold_antitone defaultSettings settingsHighThreshold
     [oppSample] (by norm_num [defaultSettings, settingsHighThreshold])⟩

/-- C10 — `filter_profitable` is idempotent: filtering its own output changes
nothing. -/
theorem filter_profitable_idem (s : Settings) (l : List ArbitrageOpportunity) :
    filter_profitable s (filter_profitable s l) = filter_profitable s l := by
  simp [filter_profitable, List.filter_filter]

end Arb

namespace Arb

/-! ### Structural lemmas about the engine's helpers -/

@[simp] theorem mem_uniqueFirst (x : String) :
    ∀ l : List String, x ∈ uniqueFirst l ↔ x ∈ l := by
  intro l
  induction l with
  | nil => simp [uniqueFirst]
  | cons y ys ih =>
    by_cases hxy : x = y
    · subst hxy; simp [uniqueFirst]
    · simp [uniqueFirst, List.mem_filter, ih, hxy, bne_iff_ne]

theorem nodup_uniqueFirst : ∀ l : List String, (uniqueFirst l).Nodup := by
  intro l
  induction l with
  | nil => simp [uniqueFirst]
  | cons y ys ih =>
    rw [uniqueFirst, List.nodup_cons]
    refine ⟨fun hy => ?_, ih.filter _⟩
    have := (List.mem_filter.mp hy).2
    simp at this

theorem pairs2_mem {l : List String} {a b : String}
    (h : (a, b) ∈ pairs2 l) (hl : l.Nodup) : a ≠ b ∧ a ∈ l ∧ b ∈ l := by
  induction l with
  | nil => simp [pairs2] at h
  | cons x xs ih =>
    simp only [pairs2, List.mem_append, List.mem_map] at h
    rcases h with ⟨y, hy, heq⟩ | h
    · cases heq
      exact ⟨fun hab => (List.nodup_cons.mp hl).1 (by rw [hab]; exact hy),
        List.mem_cons_self _ _, List.mem_cons_of_mem _ hy⟩
    · have hrec := ih h (List.nodup_cons.mp hl).2
      exact ⟨hrec.1, List.mem_cons_of_mem _ hrec.2.1, List.mem_cons_of_mem _ hrec.2.2⟩

end Arb

namespace Arb

theorem firstPriceIn_spec {group : List PriceData} {ex : String}
    (h : ex ∈ group.map (fun p => p.exchange)) :
    ∃ p, p ∈ group ∧ p.exchange = ex ∧ firstPriceIn group ex = p.price := by
  obtain ⟨p0, hp0, hp0ex⟩ := List.mem_map.mp h
  have hsome : (group.find? (fun p => p.exchange == ex)).isSome := by
    rw [List.find?_isSome]
    exact ⟨p0, hp0, by simp [hp0ex]⟩
  obtain ⟨q, hq⟩ := Option.isSome_iff_exists.mp hsome
  refine ⟨q, List.mem_of_find?_eq_some hq, ?_, ?_⟩
  · have := List.find?_some hq
    simpa using this
  · simp [firstPriceIn, hq]

/-- Every element of `calculate_opportunities` is `mkOpportunity` applied to
some symbol group and a pair of distinct exchanges of that group. -/
theorem mem_calc_decompose {s : Settings} {now : ℚ} {prices : List PriceData}
    {o : ArbitrageOpportunity} (ho : o ∈ calculate_opportunities s now prices) :
    ∃ sym ex1 ex2,
      ex1 ≠ ex2 ∧
      ex1 ∈ (prices.filter (fun p => p.symbol == sym)).map (fun p => p.exchange) ∧
      ex2 ∈ (prices.filter (fun p => p.symbol == sym)).map (fun p => p.exchange) ∧
      o = mkOpportunity s now sym (prices.filter (fun p => p.symbol == sym)) ex1 ex2 := by
  unfold calculate_opportunities at ho
  split at ho
  · simp at ho
  · rw [List.mem_insertionSort, generatedOpportunities, List.mem_flatMap] at ho
    obtain ⟨sym, _, ho⟩ := ho
    simp only [opportunitiesForSymbol] at ho
    split at ho
    · simp at ho
    · obtain ⟨pr, hpr, rfl⟩ := List.mem_map.mp ho
      obtain ⟨ex1, ex2⟩ := pr
      obtain ⟨hne, h1, h2⟩ := pairs2_mem hpr (nodup_uniqueFirst _)
      rw [mem_uniqueFirst] at h1 h2
      exact ⟨sym, ex1, ex2, hne, h1, h2, rfl⟩

/-- Shared workhorse for the invariants C5 and C9: the buy side of every
emitted opportunity is an actual input quote of the opportunity's symbol, the
cheaper of the pair, and the two exchanges differ. -/
theorem buy_of_mem_calc {s : Settings} {now : ℚ} {prices : List PriceData}
    {o : ArbitrageOpportunity} (ho : o ∈ calculate_opportunities s now prices) :
    (∃ p, p ∈ prices ∧ p.symbol = o.symbol ∧ p.exchange = o.buy_exchange ∧
        p.price = o.buy_price) ∧
      (∃ p, p ∈ prices ∧ p.symbol = o.symbol ∧ p.exchange = o.sell_exchange ∧
        p.price = o.sell_price) ∧
      o.buy_price ≤ o.sell_price ∧ o.buy_exchange ≠ o.sell_exchange := by
  obtain ⟨sym, ex1, ex2, hne, h1, h2, rfl⟩ := mem_calc_decompose ho
  obtain ⟨p1, hp1, hp1ex, hp1pr⟩ := firstPriceIn_spec h1
  obtain ⟨p2, hp2, hp2ex, hp2pr⟩ := firstPriceIn_spec h2
  have hsym1 : p1.symbol = sym := by
    have := (List.mem_filter.mp hp1).2
    simpa using this
  have hsym2 : p2.symbol = sym := by
    have := (List.mem_filter.mp hp2).2
    simpa using this
  by_cases hc :
      firstPriceIn (prices.filter (fun p => p.symbol == sym)) ex1 <
        firstPriceIn (prices.filter (fun p => p.symbol == sym)) ex2
  · refine ⟨⟨p1, List.mem_of_mem_filter hp1, ?_, ?_, ?_⟩,
      ⟨p2, List.mem_of_mem_filter hp2, ?_, ?_, ?_⟩, ?_, ?_⟩
    · simpa [mkOpportunity] using hsym1
    · simp [mkOpportunity, if_pos hc, hp1ex]
    · simp only [mkOpportunity]
      rw [if_pos hc]
      exact hp1pr.symm
    · simpa [mkOpportunity] using hsym2
    · simp [mkOpportunity, if_pos hc, hp2ex]
    · simp only [mkOpportunity]
      rw [if_pos hc]
      exact hp2pr.symm
    · simp [mkOpportunity, if_pos hc]
      exact le_of_lt hc
    · simpa [mkOpportunity, if_pos hc] using hne
  · refine ⟨⟨p2, List.mem_of_mem_filter hp2, ?_, ?_, ?_⟩,
      ⟨p1, List.mem_of_mem_filter hp1, ?_, ?_, ?_⟩, ?_, ?_⟩
    · simpa [mkOpportunity] using hsym2
    · simp [mkOpportunity, if_neg hc, hp2ex]
    · simp only [mkOpportunity]
      rw [if_neg hc]
      exact hp2pr.symm
    · simpa [mkOpportunity] using hsym1
    · simp [mkOpportunity, if_neg hc, hp1ex]
    · simp only [mkOpportunity]
      rw [if_neg hc]
      exact hp1pr.symm
    · simp [mkOpportunity, if_neg hc]
      exact le_of_not_lt hc
    · simpa [mkOpportunity, if_neg hc] using hne.symm

end Arb

namespace Arb

/-- Closed-form output of the engine on a two-quote snapshot: one symbol, two
distinct exchanges, one opportunity. -/
theorem calc_two_quotes (s : Settings) (now q1 q2 t1 t2 : ℚ) (v1 v2 : Option ℚ)
    (e1 e2 sym : String) (h : e1 ≠ e2) :
    calculate_opportunities s now
        [{ exchange := e1, symbol := sym, price := q1, timestamp := t1, volume_24h := v1 },
         { exchange := e2, symbol := sym, price := q2, timestamp := t2, volume_24h := v2 }] =
      [mkOpportunity s now sym
        [{ exchange := e1, symbol := sym, price := q1, timestamp := t1, volume_24h := v1 },
         { exchange := e2, symbol := sym, price := q2, timestamp := t2, volume_24h := v2 }]
        e1 e2] := by
  have hb : (e2 != e1) = true := bne_iff_ne.mpr (Ne.symm h)
  simp [calculate_opportunities, generatedOpportunities, opportunitiesForSymbol,
    uniqueFirst, pairs2, hb, List.filter]

/-- C4 — Every emitted opportunity's `estimated_profit_pct` is its
`price_diff_pct` minus the two exchanges' fees, and its `price_diff_pct` is
the relative price difference times 100. -/
theorem calc_profit_formula (s : Settings) (now : ℚ) (prices : List PriceData) :
    ∀ o ∈ calculate_opportunities s now prices,
      o.price_diff_pct = (o.sell_price - o.buy_price) / o.buy_price * 100 ∧
      o.estimated_profit_pct =
        o.price_diff_pct -
          (get_exchange_fee s o.buy_exchange + get_exchange_fee s o.sell_exchange) := by
  intro o ho
  obtain ⟨sym, ex1, ex2, _, _, _, rfl⟩ := mem_calc_decompose ho
  exact ⟨rfl, rfl⟩

theorem calc_profit_formula_witness :
    oppLowHigh ∈ calculate_opportunities defaultSettings 0 [quoteLow, quoteHigh] ∧
      (oppLowHigh.price_diff_pct =
          (oppLowHigh.sell_price - oppLowHigh.buy_price) / oppLowHigh.buy_price * 100 ∧
        oppLowHigh.estimated_profit_pct =
          oppLowHigh.price_diff_pct -
            (get_exchange_fee defaultSettings oppLowHigh.buy_exchange +
              get_exchange_fee defaultSettings oppLowHigh.sell_exchange)) := by
  have hm : oppLowHigh ∈ calculate_opportunities defaultSettings 0 [quoteLow, quoteHigh] := by
    show oppLowHigh ∈ calculate_opportunities defaultSettings 0
      [{ exchange := "alpha", symbol := "BTCUSDT", price := 5, timestamp := 0,
         volume_24h := none },
       { exchange := "beta", symbol := "BTCUSDT", price := 7, timestamp := 0,
         volume_24h := none }]
    rw [calc_two_quotes defaultSettings 0 5 7 0 0 none none "alpha" "beta" "BTCUSDT"
      (by decide)]
    exact List.mem_singleton.mpr rfl
  exact ⟨hm, calc_profit_formula defaultSettings 0 [quoteLow, quoteHigh] oppLowHigh hm⟩

/-- C5 — Every emitted opportunity buys at most as high as it sells, on two
distinct exchanges; both its buy side and its sell side are actual input
quotes of its symbol, so the buy exchange is the exchange of the pair's
lower-priced quote. -/
theorem calc_buy_sell_invariant (s : Settings) (now : ℚ) (prices : List PriceData) :
    ∀ o ∈ calculate_opportunities s now prices,
      o.buy_price ≤ o.sell_price ∧ o.buy_exchange ≠ o.sell_exchange ∧
        (∃ p, p ∈ prices ∧ p.symbol = o.symbol ∧ p.exchange = o.buy_exchange ∧
          p.price = o.buy_price) ∧
        (∃ p, p ∈ prices ∧ p.symbol = o.symbol ∧ p.exchange = o.sell_exchange ∧
          p.price = o.sell_price) := by
  intro o ho
  obtain ⟨hbuy, hsell, hle, hne⟩ := buy_of_mem_calc ho
  exact ⟨hle, hne, hbuy, hsell⟩

theorem calc_buy_sell_invariant_witness :
    oppLowHigh ∈ calculate_opportunities defaultSettings 0 [quoteLow, quoteHigh] ∧
      (oppLowHigh.buy_price ≤ oppLowHigh.sell_price ∧
        oppLowHigh.buy_exchange ≠ oppLowHigh.sell_exchange ∧
        (∃ p, p ∈ [quoteLow, quoteHigh] ∧ p.symbol = oppLowHigh.symbol ∧
          p.exchange = oppLowHigh.buy_exchange ∧ p.price = oppLowHigh.buy_price) ∧
        (∃ p, p ∈ [quoteLow, quoteHigh] ∧ p.symbol = oppLowHigh.symbol ∧
          p.exchange = oppLowHigh.sell_exchange ∧ p.price = oppLowHigh.sell_price)) := by
  have hm : oppLowHigh ∈ calculate_opportunities defaultSettings 0 [quoteLow, quoteHigh] := by
    show oppLowHigh ∈ calculate_opportunities defaultSettings 0
      [{ exchange := "alpha", symbol := "BTCUSDT", price := 5, timestamp := 0,
         volume_24h := none },
       { exchange := "beta", symbol := "BTCUSDT", price := 7, timestamp := 0,
         volume_24h := none }]
    rw [calc_two_quotes defaultSettings 0 5 7 0 0 none none "alpha" "beta" "BTCUSDT"
      (by decide)]
    exact List.mem_singleton.mpr rfl
  exact ⟨hm, calc_buy_sell_invariant defaultSettings 0 [quoteLow, quoteHigh] oppLowHigh hm⟩

/-- C9 — With strictly positive input prices, the divisor of
`price_diff_pct` (the buy price) of every emitted opportunity is one of the
input prices, positive, and in particular nonzero: the division-by-zero
branch is unreachable. -/
theorem calc_div_safe (s : Settings) (now : ℚ) (prices : List PriceData)
    (hpos : ∀ p ∈ prices, 0 < p.price) :
    ∀ o ∈ calculate_opportunities s now prices,
      (∃ p, p ∈ prices ∧ o.buy_price = p.price) ∧ 0 < o.buy_price ∧
        o.buy_price ≠ 0 := by
  intro o ho
  obtain ⟨⟨p, hp, _, _, hpr⟩, _, _, _⟩ := buy_of_mem_calc ho
  have hpos' : 0 < o.buy_price := hpr ▸ hpos p hp
  exact ⟨⟨p, hp, hpr.symm⟩, hpos', ne_of_gt hpos'⟩

theorem calc_div_safe_witness :
    (∀ p ∈ [quoteLow, quoteHigh], 0 < p.price) ∧
      (oppLowHigh ∈ calculate_opportunities defaultSettings 0 [quoteLow, quoteHigh] ∧
        ((∃ p, p ∈ [quoteLow, quoteHigh] ∧ oppLowHigh.buy_price = p.price) ∧
          0 < oppLowHigh.buy_price ∧ oppLowHigh.buy_price ≠ 0)) := by
  have hpos : ∀ p ∈ [quoteLow, quoteHigh], 0 < p.price := by
    intro p hp
    rcases List.mem_cons.mp hp with rfl | hp
    · norm_num [quoteLow]
    · rcases List.mem_cons.mp hp with rfl | hp
      · norm_num [quoteHigh]
      · simp at hp
  have hm : oppLowHigh ∈ calculate_opportunities defaultSettings 0 [quoteLow, quoteHigh] := by
    show oppLowHigh ∈ calculate_opportunities defaultSettings 0
      [{ exchange := "alpha", symbol := "BTCUSDT", price := 5, timestamp := 0,
         volume_24h := none },
       { exchange := "beta", symbol := "BTCUSDT", price := 7, timestamp := 0,
         volume_24h := none }]
    rw [calc_two_quotes defaultSettings 0 5 7 0 0 none none "alpha" "beta" "BTCUSDT"
      (by decide)]
    exact List.mem_singleton.mpr rfl
  exact ⟨hpos, hm,
    calc_div_safe defaultSettings 0 [quoteLow, quoteHigh] hpos oppLowHigh hm⟩

end Arb

namespace Arb

theorem get_exchange_fee_of_unknown (s : Settings) (e : String)
    (hm : pyLower e ∉ (["bybit", "binance", "kucoin"] : List String)) :
    get_exchange_fee s e = DEFAULT_FEE := by
  simp only [List.mem_cons, List.not_mem_nil, or_false, not_or] at hm
  simp only [get_exchange_fee, if_neg hm.1, if_neg hm.2.1, if_neg hm.2.2]

/-- Workhorse for C1: on a two-quote snapshot with exactly equal prices the
engine still emits one opportunity — buy on the later-listed exchange, zero
price difference, profit equal to minus the summed fees. -/
theorem calc_pair_equal_prices (s : Settings) (now q t1 t2 : ℚ) (v1 v2 : Option ℚ)
    (e1 e2 sym : String) (h : e1 ≠ e2) :
    calculate_opportunities s now
        [{ exchange := e1, symbol := sym, price := q, timestamp := t1, volume_24h := v1 },
         { exchange := e2, symbol := sym, price := q, timestamp := t2, volume_24h := v2 }] =
      [{ symbol := sym, buy_exchange := e2, sell_exchange := e1,
         buy_price := q, sell_price := q, price_diff := 0, price_diff_pct := 0,
         estimated_profit_pct := -(get_exchange_fee s e2 + get_exchange_fee s e1),
         timestamp := now }] := by
  rw [calc_two_quotes s now q q t1 t2 v1 v2 e1 e2 sym h]
  have hb : (e1 == e2) = false := beq_eq_false_iff_ne.mpr h
  have hfp1 : firstPriceIn
      [{ exchange := e1, symbol := sym, price := q, timestamp := t1, volume_24h := v1 },
       { exchange := e2, symbol := sym, price := q, timestamp := t2, volume_24h := v2 }]
      e1 = q := by
    simp [firstPriceIn, List.find?]
  have hfp2 : firstPriceIn
      [{ exchange := e1, symbol := sym, price := q, timestamp := t1, volume_24h := v1 },
       { exchange := e2, symbol := sym, price := q, timestamp := t2, volume_24h := v2 }]
      e2 = q := by
    simp [firstPriceIn, List.find?, hb]
  simp only [mkOpportunity, hfp1, hfp2, lt_irrefl, if_neg (lt_irrefl q)]
  simp [sub_self, zero_div, zero_mul, zero_sub]

/-- C1 (counterexample) — two exchanges quoting exactly equal prices for the
same symbol: the engine emits one opportunity for that pair, not zero. -/
theorem calc_equal_prices_counterexample :
    (calculate_opportunities defaultSettings 0
        [{ exchange := "alpha", symbol := "XYZUSDT", price := 5, timestamp := 0,
           volume_24h := none },
         { exchange := "beta", symbol := "XYZUSDT", price := 5, timestamp := 0,
           volume_24h := none }]).map
      (fun o => (o.symbol, o.buy_exchange, o.sell_exchange, o.price_diff)) =
      [("XYZUSDT", "beta", "alpha", 0)] := by
  rw [calc_pair_equal_prices defaultSettings 0 5 0 0 none none "alpha" "beta" "XYZUSDT"
    (by decide)]
  simp

theorem one_lt_length_of_two_mem {α : Type} {a b : α} {l : List α}
    (hab : a ≠ b) (ha : a ∈ l) (hb : b ∈ l) : 1 < l.length := by
  cases l with
  | nil => simp at ha
  | cons x xs =>
    cases xs with
    | nil =>
      simp at ha hb
      exact absurd (ha.trans hb.symm) hab
    | cons y ys =>
      simp [List.length]

theorem countP_beq_eq_one {xs : List String} {e : String}
    (hn : xs.Nodup) (he : e ∈ xs) :
    xs.countP (fun y => y == e) = 1 := by
  induction xs with
  | nil => simp at he
  | cons x xs ih =>
    obtain ⟨hx_nmem, hn'⟩ := List.nodup_cons.mp hn
    rw [List.countP_cons]
    rcases List.mem_cons.mp he with rfl | hmem
    · have hz : xs.countP (fun y => y == e) = 0 := by
        apply List.countP_eq_zero.mpr
        intro a ha hae
        rw [beq_iff_eq] at hae
        exact hx_nmem (hae ▸ ha)
      simp [hz]
    · have hx : ¬ ((x == e) = true) := by
        intro h
        rw [beq_iff_eq] at h
        exact hx_nmem (h ▸ hmem)
      simp [hx, ih hn' hmem]

theorem countP_pairs2_pair {ex1 ex2 : String} :
    ∀ {l : List String}, l.Nodup → ex1 ∈ l → ex2 ∈ l → ex1 ≠ ex2 →
      (pairs2 l).countP
          (fun pr => (pr.1 == ex1 && pr.2 == ex2) || (pr.1 == ex2 && pr.2 == ex1)) = 1 := by
  intro l
  induction l with
  | nil => intro _ h1; simp at h1
  | cons x xs ih =>
    intro hn h1 h2 hne
    obtain ⟨hx_nmem, hn'⟩ := List.nodup_cons.mp hn
    rw [pairs2, List.countP_append, List.countP_map]
    by_cases hx1 : x = ex1
    · have h2' : ex2 ∈ xs := by
        rcases List.mem_cons.mp h2 with h | h
        · exact absurd (h.trans hx1).symm hne
        · exact h
      have hcomp : xs.countP
          ((fun pr : String × String =>
              (pr.1 == ex1 && pr.2 == ex2) || (pr.1 == ex2 && pr.2 == ex1)) ∘
            (fun y => (x, y))) = xs.countP (fun y => y == ex2) := by
        apply List.countP_congr
        intro y _
        simp [Function.comp, beq_iff_eq, hx1, hne]
      have hz : (pairs2 xs).countP
          (fun pr => (pr.1 == ex1 && pr.2 == ex2) || (pr.1 == ex2 && pr.2 == ex1)) = 0 := by
        apply List.countP_eq_zero.mpr
        intro pr hpr hP
        obtain ⟨a, b⟩ := pr
        obtain ⟨-, hax, hbx⟩ := pairs2_mem hpr hn'
        simp only [Bool.or_eq_true, Bool.and_eq_true, beq_iff_eq] at hP
        rcases hP with ⟨ha1, -⟩ | ⟨-, hb1⟩
        · exact hx_nmem (by rw [hx1, ← ha1]; exact hax)
        · exact hx_nmem (by rw [hx1, ← hb1]; exact hbx)
      rw [hcomp, countP_beq_eq_one hn' h2', hz]
    · by_cases hx2 : x = ex2
      · have h1' : ex1 ∈ xs := by
          rcases List.mem_cons.mp h1 with h | h
          · exact absurd h.symm hx1
          · exact h
        have hcomp : xs.countP
            ((fun pr : String × String =>
                (pr.1 == ex1 && pr.2 == ex2) || (pr.1 == ex2 && pr.2 == ex1)) ∘
              (fun y => (x, y))) = xs.countP (fun y => y == ex1) := by
          apply List.countP_congr
          intro y _
          simp only [Function.comp, Bool.or_eq_true, Bool.and_eq_true, beq_iff_eq]
          constructor
          · rintro (⟨h, -⟩ | ⟨-, h⟩)
            · exact absurd (hx2 ▸ h : x = ex1) hx1
            · exact h
          · intro h
            exact Or.inr ⟨hx2, h⟩
        have hz : (pairs2 xs).countP
            (fun pr => (pr.1 == ex1 && pr.2 == ex2) || (pr.1 == ex2 && pr.2 == ex1)) = 0 := by
          apply List.countP_eq_zero.mpr
          intro pr hpr hP
          obtain ⟨a, b⟩ := pr
          obtain ⟨-, hax, hbx⟩ := pairs2_mem hpr hn'
          simp only [Bool.or_eq_true, Bool.and_eq_true, beq_iff_eq] at hP
          rcases hP with ⟨-, hb2⟩ | ⟨ha2, -⟩
          · exact hx_nmem (by rw [hx2, ← hb2]; exact hbx)
          · exact hx_nmem (by rw [hx2, ← ha2]; exact hax)
        rw [hcomp, countP_beq_eq_one hn' h1', hz]
      · have h1' : ex1 ∈ xs := by
          rcases List.mem_cons.mp h1 with h | h
          · exact absurd h.symm hx1
          · exact h
        have h2' : ex2 ∈ xs := by
          rcases List.mem_cons.mp h2 with h | h
          · exact absurd h.symm hx2
          · exact h
        have hmap : xs.countP
            ((fun pr : String × String =>
                (pr.1 == ex1 && pr.2 == ex2) || (pr.1 == ex2 && pr.2 == ex1)) ∘
              (fun y => (x, y))) = 0 := by
          apply List.countP_eq_zero.mpr
          intro y _ hP
          simp only [Function.comp, Bool.or_eq_true, Bool.and_eq_true, beq_iff_eq] at hP
          rcases hP with ⟨h, -⟩ | ⟨h, -⟩
          · exact hx1 h
          · exact hx2 h
        rw [hmap, ih hn' h1' h2' hne]

theorem countP_isOppFor_oppForSymbol_of_ne (s : Settings) (now : ℚ)
    (prices : List PriceData) {sym sym' : String} (hne : sym' ≠ sym)
    (ex1 ex2 : String) :
    (opportunitiesForSymbol s now prices sym').countP (isOppFor sym ex1 ex2) = 0 := by
  apply List.countP_eq_zero.mpr
  intro o ho hP
  simp only [opportunitiesForSymbol] at ho
  split at ho
  · simp at ho
  · obtain ⟨pr, -, rfl⟩ := List.mem_map.mp ho
    simp [isOppFor, mkOpportunity, hne] at hP

theorem isOppFor_mkOpportunity (s : Settings) (now : ℚ) (sym : String)
    (group : List PriceData) (a b ex1 ex2 : String) :
    isOppFor sym ex1 ex2 (mkOpportunity s now sym group a b) =
      ((a == ex1 && b == ex2) || (a == ex2 && b == ex1)) := by
  by_cases hc : firstPriceIn group a < firstPriceIn group b
  · simp [isOppFor, mkOpportunity, if_pos hc]
  · simp only [isOppFor, mkOpportunity, if_neg hc, beq_self_eq_true, Bool.true_and]
    rw [Bool.and_comm (b == ex1) (a == ex2), Bool.and_comm (b == ex2) (a == ex1),
      Bool.or_comm]

theorem countP_isOppFor_oppForSymbol_self (s : Settings) (now : ℚ)
    (prices : List PriceData) {sym ex1 ex2 : String} (hne : ex1 ≠ ex2)
    (h1 : ex1 ∈ (prices.filter (fun p => p.symbol == sym)).map (fun p => p.exchange))
    (h2 : ex2 ∈ (prices.filter (fun p => p.symbol == sym)).map (fun p => p.exchange)) :
    (opportunitiesForSymbol s now prices sym).countP (isOppFor sym ex1 ex2) = 1 := by
  obtain ⟨p1, hp1, hp1ex⟩ := List.mem_map.mp h1
  obtain ⟨p2, hp2, hp2ex⟩ := List.mem_map.mp h2
  have hp12 : p1 ≠ p2 := fun h => hne (by rw [← hp1ex, ← hp2ex, h])
  have hlen : ¬ (prices.filter (fun p => p.symbol == sym)).length < 2 := by
    have := one_lt_length_of_two_mem hp12 hp1 hp2
    omega
  simp only [opportunitiesForSymbol]
  rw [if_neg hlen, List.countP_map]
  have hcomp :
      (prices.filter (fun p => p.symbol == sym) |>.map (fun p => p.exchange)
          |> uniqueFirst |> pairs2).countP
        ((isOppFor sym ex1 ex2) ∘
          (fun pr => mkOpportunity s now sym
            (prices.filter (fun p => p.symbol == sym)) pr.1 pr.2)) =
      (prices.filter (fun p => p.symbol == sym) |>.map (fun p => p.exchange)
          |> uniqueFirst |> pairs2).countP
        (fun pr => (pr.1 == ex1 && pr.2 == ex2) || (pr.1 == ex2 && pr.2 == ex1)) := by
    apply List.countP_congr
    intro pr _
    obtain ⟨a, b⟩ := pr
    simp only [Function.comp]
    rw [isOppFor_mkOpportunity]
  rw [hcomp]
  exact countP_pairs2_pair (nodup_uniqueFirst _)
    ((mem_uniqueFirst _ _).mpr h1) ((mem_uniqueFirst _ _).mpr h2) hne

theorem countP_flatMap_of_single {α β : Type} (q : β → Bool) (f : α → List β) :
    ∀ (L : List α) (a : α), a ∈ L → L.Nodup →
      (∀ b ∈ L, b ≠ a → (f b).countP q = 0) →
      (L.flatMap f).countP q = (f a).countP q := by
  intro L
  induction L with
  | nil => intro a ha; simp at ha
  | cons x xs ih =>
    intro a ha hn hz
    obtain ⟨hx_nmem, hn'⟩ := List.nodup_cons.mp hn
    rw [List.flatMap_cons, List.countP_append]
    rcases List.mem_cons.mp ha with rfl | hmem
    · have hrest : (xs.flatMap f).countP q = 0 := by
        apply List.countP_eq_zero.mpr
        intro y hy
        obtain ⟨b, hb, hyb⟩ := List.mem_flatMap.mp hy
        have hzb := hz b (List.mem_cons_of_mem _ hb)
          (fun hba => hx_nmem (hba ▸ hb))
        exact List.countP_eq_zero.mp hzb y hyb
      rw [hrest]
      omega
    · have hx0 := hz x (List.mem_cons_self _ _)
        (fun hxa => hx_nmem (hxa ▸ hmem))
      rw [hx0, ih a hmem hn'
        (fun b hb hba => hz b (List.mem_cons_of_mem _ hb) hba)]
      simp

/-- C1 (amended) — universal over snapshots: whenever two distinct exchanges
both quote a symbol in the input and the engine's two prices for that pair
are exactly equal, `calculate_opportunities` emits exactly one opportunity
for that symbol and exchange pair (not zero), and any such opportunity has
`price_diff = 0`, `price_diff_pct = 0`, equal buy and sell prices, and
`estimated_profit_pct = -(fee(buy) + fee(sell))`. -/
theorem calc_equal_prices_amended (s : Settings) (now : ℚ) (prices : List PriceData)
    (sym ex1 ex2 : String) (hne : ex1 ≠ ex2)
    (h1 : ex1 ∈ (prices.filter (fun p => p.symbol == sym)).map (fun p => p.exchange))
    (h2 : ex2 ∈ (prices.filter (fun p => p.symbol == sym)).map (fun p => p.exchange))
    (heq : firstPriceIn (prices.filter (fun p => p.symbol == sym)) ex1 =
      firstPriceIn (prices.filter (fun p => p.symbol == sym)) ex2) :
    (calculate_opportunities s now prices).countP (isOppFor sym ex1 ex2) = 1 ∧
      ∀ o ∈ calculate_opportunities s now prices, isOppFor sym ex1 ex2 o = true →
        o.price_diff = 0 ∧ o.price_diff_pct = 0 ∧ o.buy_price = o.sell_price ∧
          o.estimated_profit_pct =
            -(get_exchange_fee s o.buy_exchange + get_exchange_fee s o.sell_exchange) := by
  obtain ⟨p1, hp1, hp1ex⟩ := List.mem_map.mp h1
  constructor
  · have hpe : ¬ prices.isEmpty = true := by
      intro h
      rw [List.isEmpty_iff.mp h] at hp1
      simp at hp1
    unfold calculate_opportunities
    rw [if_neg hpe, List.Perm.countP_eq _ (List.perm_insertionSort profitDesc _),
      generatedOpportunities,
      countP_flatMap_of_single _ _ _ sym
        ((mem_uniqueFirst _ _).mpr (List.mem_map.mpr
          ⟨p1, List.mem_of_mem_filter hp1, by
            have := (List.mem_filter.mp hp1).2
            simpa using this⟩))
        (nodup_uniqueFirst _)
        (fun sym' _ hss => countP_isOppFor_oppForSymbol_of_ne s now prices hss ex1 ex2)]
    exact countP_isOppFor_oppForSymbol_self s now prices hne h1 h2
  · intro o ho hP
    obtain ⟨sym', a, b, hab, ha, hb, rfl⟩ := mem_calc_decompose ho
    have hsym : sym' = sym := by
      simp only [isOppFor, mkOpportunity, Bool.and_eq_true, beq_iff_eq] at hP
      exact hP.1
    subst hsym
    by_cases hc :
        firstPriceIn (prices.filter (fun p => p.symbol == sym')) a <
          firstPriceIn (prices.filter (fun p => p.symbol == sym')) b
    · have hmatch : (a = ex1 ∧ b = ex2) ∨ (a = ex2 ∧ b = ex1) := by
        simp only [isOppFor, mkOpportunity, if_pos hc, Bool.and_eq_true,
          Bool.or_eq_true, beq_iff_eq] at hP
        exact hP.2
      have hpp : firstPriceIn (prices.filter (fun p => p.symbol == sym')) a =
          firstPriceIn (prices.filter (fun p => p.symbol == sym')) b := by
        rcases hmatch with ⟨rfl, rfl⟩ | ⟨rfl, rfl⟩
        · exact heq
        · exact heq.symm
      rw [hpp] at hc
      exact absurd hc (lt_irrefl _)
    · have hmatch : (b = ex1 ∧ a = ex2) ∨ (b = ex2 ∧ a = ex1) := by
        simp only [isOppFor, mkOpportunity, if_neg hc, Bool.and_eq_true,
          Bool.or_eq_true, beq_iff_eq] at hP
        exact hP.2
      have hpp : firstPriceIn (prices.filter (fun p => p.symbol == sym')) a =
          firstPriceIn (prices.filter (fun p => p.symbol == sym')) b := by
        rcases hmatch with ⟨rfl, rfl⟩ | ⟨rfl, rfl⟩
        · exact heq.symm
        · exact heq
      refine ⟨?_, ?_, ?_, ?_⟩
      · simp [mkOpportunity, if_neg hc, hpp]
      · simp [mkOpportunity, if_neg hc, hpp, sub_self, zero_div, zero_mul]
      · simp [mkOpportunity, if_neg hc, hpp]
      · simp [mkOpportunity, if_neg hc, hpp, sub_self, zero_div, zero_mul, zero_sub]

theorem calc_equal_prices_amended_witness :
    (("alpha" : String) ≠ "beta" ∧
      "alpha" ∈ (([quoteEqA, quoteEqB]).filter
        (fun p => p.symbol == "XYZUSDT")).map (fun p => p.exchange) ∧
      "beta" ∈ (([quoteEqA, quoteEqB]).filter
        (fun p => p.symbol == "XYZUSDT")).map (fun p => p.exchange) ∧
      firstPriceIn (([quoteEqA, quoteEqB]).filter
          (fun p => p.symbol == "XYZUSDT")) "alpha" =
        firstPriceIn (([quoteEqA, quoteEqB]).filter
          (fun p => p.symbol == "XYZUSDT")) "beta") ∧
    ((calculate_opportunities defaultSettings 0 [quoteEqA, quoteEqB]).countP
        (isOppFor "XYZUSDT" "alpha" "beta") = 1 ∧
      ∀ o ∈ calculate_opportunities defaultSettings 0 [quoteEqA, quoteEqB],
        isOppFor "XYZUSDT" "alpha" "beta" o = true →
          o.price_diff = 0 ∧ o.price_diff_pct = 0 ∧ o.buy_price = o.sell_price ∧
            o.estimated_profit_pct =
              -(get_exchange_fee defaultSettings o.buy_exchange +
                get_exchange_fee defaultSettings o.sell_exchange)) :=
  ⟨⟨by decide, by decide, by decide, rfl⟩,
   calc_equal_prices_amended defaultSettings 0 [quoteEqA, quoteEqB]
     "XYZUSDT" "alpha" "beta" (by decide) (by decide) (by decide) rfl⟩

end Arb

namespace Arb

theorem orderedInsert_map_withTimestamp (ts : ℚ) (a : ArbitrageOpportunity) :
    ∀ l : List ArbitrageOpportunity,
      List.orderedInsert profitDesc (withTimestamp ts a) (l.map (withTimestamp ts)) =
        (List.orderedInsert profitDesc a l).map (withTimestamp ts) := by
  intro l
  induction l with
  | nil => rfl
  | cons b l ih =>
    have hiff : profitDesc (withTimestamp ts a) (withTimestamp ts b) ↔ profitDesc a b :=
      Iff.rfl
    by_cases hab : profitDesc a b
    · rw [List.map_cons, List.orderedInsert, List.orderedInsert,
        if_pos (hiff.mpr hab), if_pos hab, List.map_cons, List.map_cons]
    · rw [List.map_cons, List.orderedInsert, List.orderedInsert,
        if_neg (fun hc => hab (hiff.mp hc)), if_neg hab, List.map_cons, ih]

theorem insertionSort_map_withTimestamp (ts : ℚ) :
    ∀ l : List ArbitrageOpportunity,
      List.insertionSort profitDesc (l.map (withTimestamp ts)) =
        (List.insertionSort profitDesc l).map (withTimestamp ts) := by
  intro l
  induction l with
  | nil => rfl
  | cons a l ih =>
    rw [List.map_cons, List.insertionSort, List.insertionSort, ih,
      orderedInsert_map_withTimestamp]

theorem oppForSymbol_withTimestamp (s : Settings) (now now' : ℚ)
    (prices : List PriceData) (sym : String) :
    opportunitiesForSymbol s now prices sym =
      (opportunitiesForSymbol s now' prices sym).map (withTimestamp now) := by
  simp only [opportunitiesForSymbol]
  split
  · simp
  · rw [List.map_map]
    rfl

/-- C3 (counterexample) — the engine's output is not a function of the quote
list and fee configuration alone: the same snapshot processed at two
different clock instants yields different outputs (the `timestamp` field of
each opportunity records the clock at construction). -/
theorem calc_clock_dependence_counterexample :
    calculate_opportunities defaultSettings 0
        [{ exchange := "alpha", symbol := "BTCUSDT", price := 5, timestamp := 0,
           volume_24h := none },
         { exchange := "beta", symbol := "BTCUSDT", price := 7, timestamp := 0,
           volume_24h := none }] ≠
      calculate_opportunities defaultSettings 1
        [{ exchange := "alpha", symbol := "BTCUSDT", price := 5, timestamp := 0,
           volume_24h := none },
         { exchange := "beta", symbol := "BTCUSDT", price := 7, timestamp := 0,
           volume_24h := none }] := by
  rw [calc_two_quotes defaultSettings 0 5 7 0 0 none none "alpha" "beta" "BTCUSDT"
      (by decide),
    calc_two_quotes defaultSettings 1 5 7 0 0 none none "alpha" "beta" "BTCUSDT"
      (by decide)]
  intro h
  simp [mkOpportunity, ArbitrageOpportunity.mk.injEq] at h

/-- C3 (amended) — both engine operations are deterministic given their
inputs and the ambient clock, and the clock influences only the `timestamp`
field: outputs computed at two clock instants agree field-for-field after
overwriting `timestamp`. -/
theorem calc_clock_only_timestamp (s : Settings) (now now' : ℚ)
    (prices : List PriceData) :
    calculate_opportunities s now prices =
      (calculate_opportunities s now' prices).map (withTimestamp now) := by
  simp only [calculate_opportunities, generatedOpportunities]
  split
  · simp
  · rw [← insertionSort_map_withTimestamp]
    congr 1
    simp only [oppForSymbol_withTimestamp s now now' prices]
    rw [List.map_flatMap]

end Arb

namespace Arb

theorem tie_step1 :
    calculate_opportunities defaultSettings 0 [rowBx, rowBy, rowAx, rowAy] =
      List.insertionSort profitDesc [oppB, oppA] := by
  simp only [calculate_opportunities, generatedOpportunities, opportunitiesForSymbol,
    rowBx, rowBy, rowAx, rowAy,
    oppB, oppA, uniqueFirst, pairs2, List.filter, List.flatMap, List.map,
    (by decide : (("A" : String) != "B") = true),
    (by decide : (("A" : String) == "B") = false),
    (by decide : (("B" : String) == "A") = false),
    (by decide : (("B" : String) == "B") = true),
    (by decide : (("A" : String) == "A") = true),
    (by decide : (("B" : String) != "B") = false),
    (by decide : (("A" : String) != "A") = false),
    (by decide : (("y" : String) != "x") = true),
    List.isEmpty_cons, Bool.false_eq_true, if_false, ite_false]
  norm_num

theorem tie_oppB_profit : oppB.estimated_profit_pct = 4999/50 := by
  have hfx : firstPriceIn [rowBx, rowBy] "x" = 1 := by
    simp [firstPriceIn, List.find?, rowBx, rowBy]
  have hfy : firstPriceIn [rowBx, rowBy] "y" = 2 := by
    simp [firstPriceIn, List.find?, rowBx, rowBy,
      (by decide : (("x" : String) == "y") = false)]
  simp only [oppB, mkOpportunity, hfx, hfy, if_pos (show (1:ℚ) < 2 by norm_num)]
  rw [get_exchange_fee_of_unknown defaultSettings "x" (by decide),
    get_exchange_fee_of_unknown defaultSettings "y" (by decide)]
  norm_num [DEFAULT_FEE]

theorem tie_oppA_profit : oppA.estimated_profit_pct = 4999/50 := by
  have hfx : firstPriceIn [rowAx, rowAy] "x" = 1 := by
    simp [firstPriceIn, List.find?, rowAx, rowAy]
  have hfy : firstPriceIn [rowAx, rowAy] "y" = 2 := by
    simp [firstPriceIn, List.find?, rowAx, rowAy,
      (by decide : (("x" : String) == "y") = false)]
  simp only [oppA, mkOpportunity, hfx, hfy, if_pos (show (1:ℚ) < 2 by norm_num)]
  rw [get_exchange_fee_of_unknown defaultSettings "x" (by decide),
    get_exchange_fee_of_unknown defaultSettings "y" (by decide)]
  norm_num [DEFAULT_FEE]

theorem tie_step3 :
    List.insertionSort profitDesc [oppB, oppA] = [oppB, oppA] := by
  simp only [List.insertionSort, List.orderedInsert]
  rw [if_pos (show profitDesc oppB oppA from by
    show oppA.estimated_profit_pct ≤ oppB.estimated_profit_pct
    rw [tie_oppA_profit, tie_oppB_profit])]

/-- C2 (counterexample) — two equal-profit opportunities appear in symbol
first-appearance order ("B" before "A"), not in symbol-ascending order: the
claimed tie-breaking by symbol then buy exchange does not hold of the code's
stable one-key sort. -/
theorem calc_sort_tie_counterexample :
    ¬ List.Pairwise specTieRel
        (calculate_opportunities defaultSettings 0 [rowBx, rowBy, rowAx, rowAy]) := by
  rw [tie_step1, tie_step3]
  intro hp
  have h01 : specTieRel oppB oppA := (List.pairwise_cons.mp hp).1 oppA (by simp)
  have h2 := h01.2 (by rw [tie_oppB_profit, tie_oppA_profit])
  have hsB : oppB.symbol = "B" := rfl
  have hsA : oppA.symbol = "A" := rfl
  rw [hsB, hsA] at h2
  rcases h2 with hlt | ⟨heq, -⟩
  · rw [String.lt_iff_toList_lt] at hlt
    exact absurd hlt (by decide)
  · exact absurd heq (by decide)

theorem orderedInsert_filter_profitEq (v : ℚ) (a : ArbitrageOpportunity) :
    ∀ L : List ArbitrageOpportunity,
      (List.orderedInsert profitDesc a L).filter
          (fun o => o.estimated_profit_pct == v) =
        (a :: L).filter (fun o => o.estimated_profit_pct == v) := by
  intro L
  induction L with
  | nil => rfl
  | cons b L ih =>
    by_cases hab : profitDesc a b
    · rw [List.orderedInsert, if_pos hab]
    · rw [List.orderedInsert, if_neg hab]
      by_cases hqb : b.estimated_profit_pct = v
      · have hqa : ¬ a.estimated_profit_pct = v :=
          fun hqa => hab (le_of_eq (hqb.trans hqa.symm))
        simp [List.filter_cons, hqb, hqa, ih]
      · simp [List.filter_cons, hqb, ih]

theorem insertionSort_filter_profitEq (v : ℚ) :
    ∀ l : List ArbitrageOpportunity,
      (List.insertionSort profitDesc l).filter
          (fun o => o.estimated_profit_pct == v) =
        l.filter (fun o => o.estimated_profit_pct == v) := by
  intro l
  induction l with
  | nil => rfl
  | cons a l ih =>
    rw [List.insertionSort, orderedInsert_filter_profitEq]
    simp only [List.filter_cons, ih]

/-- C2 (amended) — the output of `calculate_opportunities` is sorted by
`estimated_profit_pct` descending, and equal-profit ties keep the stable
generation order (symbol first-appearance order, then exchange-pair order),
with no symbol/buy-exchange tie-breaking: for every profit level `v`, the
output restricted to opportunities of profit `v` coincides, in order, with
the pre-sort generation list restricted to profit `v`. -/
theorem calc_sorted_desc_amended (s : Settings) (now : ℚ) (prices : List PriceData) :
    List.Pairwise profitDesc (calculate_opportunities s now prices) ∧
      ∀ v : ℚ,
        (calculate_opportunities s now prices).filter
            (fun o => o.estimated_profit_pct == v) =
          (generatedOpportunities s now prices).filter
            (fun o => o.estimated_profit_pct == v) := by
  constructor
  · unfold calculate_opportunities
    split
    · exact List.Pairwise.nil
    · exact List.sorted_insertionSort profitDesc _
  · intro v
    unfold calculate_opportunities
    split
    · rename_i h
      rw [List.isEmpty_iff.mp h]
      simp [generatedOpportunities, uniqueFirst]
    · exact insertionSort_filter_profitEq v _

end Arb
